import Mathlib

/-!
Verification of the `ambiguity_simple` package: a shallow embedding of
`classifier.py` (per-word scorer and batch classifier) and `evaluation.py`
(gold-standard evaluator), with theorems settling the specification claims.

Modelling conventions:
* Python `str` is Lean `String`.  The Python string primitives used by the
  source (`strip`, `lower`, `islower`, `<` on strings) are modelled as
  executable functions on the underlying character list (`pyStrip`,
  `pyLower`, `pyIslower`, `string_lt`), all agreeing with the Lean/Mathlib
  string order on the ASCII inputs the program manipulates.
* Python `set[str]` is `Finset String`; `float` is `ℚ` (exact rationals in
  place of IEEE doubles: every constant in the source is a small decimal and
  no claim depends on rounding).
* Python `sorted` is `List.insertionSort` with the appropriate total
  relation (all sorted lists in this program have pairwise-distinct
  elements, so any stable comparison sort produces the same list).
* File I/O is factored out: functions take the list of lines (or of parsed
  TSV rows) that the Python code reads, and return the data that the Python
  code writes or the value/exception it produces (`Except String`).
* The two lexicon data files `data/common.txt` and `data/proper.txt` are data
  of the repository, not source code; their contents are left as parameters
  `commons propers : Finset String` of the classifier functions, so every
  theorem below holds for the shipped lexicons whatever they contain.
-/

/-! ### Python string primitives -/

/-- Python `str.strip()` (ASCII whitespace): drop whitespace from both
ends. -/
def pyStrip (s : String) : String :=
  ⟨((s.data.dropWhile Char.isWhitespace).reverse.dropWhile Char.isWhitespace).reverse⟩

/-- Python `str.lower()` (ASCII case mapping). -/
def pyLower (s : String) : String := ⟨s.data.map Char.toLower⟩

/-- Python `str.islower()` restricted to ASCII: at least one cased character
and no uppercase character. -/
def pyIslower (s : String) : Bool :=
  s.data.any (fun c => c.isLower) && s.data.all (fun c => !c.isUpper)

/-- Python `a < b` on strings: strict lexicographic order on code points. -/
def string_lt (a b : String) : Prop := List.Lex (· < ·) a.data b.data

instance : DecidableRel string_lt := fun a b =>
  inferInstanceAs (Decidable (List.Lex (· < ·) a.data b.data))

/-- Python `a <= b` on strings (the order `sorted` produces without a key). -/
def string_le (a b : String) : Prop := ¬ string_lt b a

instance : DecidableRel string_le := fun a b =>
  inferInstanceAs (Decidable (¬ string_lt b a))

theorem string_lt_iff (a b : String) : string_lt a b ↔ a < b :=
  String.lt_iff_toList_lt.symm

theorem string_le_iff (a b : String) : string_le a b ↔ a ≤ b :=
  not_congr (string_lt_iff b a)

instance : IsTrans String string_le :=
  ⟨fun a b c hab hbc => (string_le_iff a c).mpr
    (le_trans ((string_le_iff a b).mp hab) ((string_le_iff b c).mp hbc))⟩

instance : IsTotal String string_le :=
  ⟨fun a b => by
    rcases le_total a b with h | h
    · exact Or.inl ((string_le_iff a b).mpr h)
    · exact Or.inr ((string_le_iff b a).mpr h)⟩

instance : IsAntisymm String string_le :=
  ⟨fun a b hab hba => le_antisymm ((string_le_iff a b).mp hab) ((string_le_iff b a).mp hba)⟩

/-! ### classifier.py: constants (lines 18-29 of the source) -/

def _COMMON_MEMBERSHIP : ℚ := 5
def _PROPER_MEMBERSHIP : ℚ := -4
def _ZIPF_MULTIPLIER : ℚ := 9 / 10
def _ZIPF_BIAS : ℚ := -4
def _WORD_LENGTH_NEUTRAL : ℤ := 7
def _WORD_LENGTH_MULTIPLIER : ℚ := 1 / 25
def _CAPITALIZATION_PENALTY : ℚ := 0
def _COMMON_THRESHOLD : ℚ := 1 / 20
def _NOT_THRESHOLD : ℚ := -40

/-- `_USE_WORDFREQ`/`_WORDFREQ_AVAILABLE`: the optional `wordfreq` dependency
is disabled in the default configuration (env `AMBICLASS_USE_WORDFREQ`
unset), so `_WORDFREQ_AVAILABLE` is `False`. -/
def _WORDFREQ_AVAILABLE : Bool := false

/-- `_zipf`: returns `0.0` because `_WORDFREQ_AVAILABLE` is false in the
default configuration (the external `wordfreq` provider is not part of the
repository). -/
def _zipf (_word : String) : ℚ := 0

structure ClassificationResult where
  word : String
  label : String
  score : ℚ
  reason : String
deriving DecidableEq, Repr

/-- `classify_word` (classifier.py lines 89-128), with the lexicon contents
as parameters and the default configuration (`wordfreq` disabled, so
`zipf = 0.0`, and `_CAPITALIZATION_PENALTY = 0.0` makes the capitalization
block a no-op: its guard is Python float truthiness, modelled as `≠ 0`, and
its `freq_factor` is `0.0` because `wordfreq` is unavailable). -/
def classify_word (commons propers : Finset String) (word0 : String) :
    ClassificationResult :=
  let word := pyStrip word0
  if word = "" then ⟨word, "unknown", 0, "empty"⟩
  else
    let lower := pyLower word
    let commons_lower := commons.image pyLower
    let propers_lower := propers.image pyLower
    let score : ℚ := 0
    let score :=
      if word ∈ commons ∨ (pyIslower word = true ∧ lower ∈ commons_lower) then
        score + _COMMON_MEMBERSHIP
      else score
    let score :=
      if propers.Nonempty ∧ word ∈ propers then score + _PROPER_MEMBERSHIP
      else if propers_lower.Nonempty ∧ pyIslower word = true ∧ lower ∈ propers_lower then
        score + _PROPER_MEMBERSHIP
      else score
    let zipf := _zipf lower
    let score := score + _ZIPF_MULTIPLIER * (zipf + _ZIPF_BIAS)
    let length_delta : ℤ := (word.length : ℤ) - _WORD_LENGTH_NEUTRAL
    let score := score - _WORD_LENGTH_MULTIPLIER * (length_delta : ℚ)
    let score :=
      if _CAPITALIZATION_PENALTY ≠ 0 ∧ word.front.isUpper = true then
        score - _CAPITALIZATION_PENALTY * 0
      else score
    let label := if _COMMON_THRESHOLD ≤ score then "likely ambiguous" else "likely non-ambiguous"
    let label := if score ≤ _NOT_THRESHOLD then "likely non-ambiguous" else label
    -- `reason_bits`: "zipf=n/a" because `_WORDFREQ_AVAILABLE` is false
    let reason := String.intercalate ";" ["zipf=n/a", "lenΔ=" ++ toString length_delta]
    ⟨word, label, score, reason⟩

/-- `treat_as_common` (classifier.py lines 144-148), the common-leaning fact
derived for a scored word inside `classify_words`. -/
def treat_as_common (commons : Finset String) (res : ClassificationResult) : Prop :=
  res.label = "likely ambiguous" ∨ res.word ∈ commons ∨
    (pyIslower res.word = true ∧ pyLower res.word ∈ commons.image pyLower)

instance (commons : Finset String) (res : ClassificationResult) :
    Decidable (treat_as_common commons res) := by
  unfold treat_as_common; infer_instance

/-- `treat_as_proper` (classifier.py lines 149-152). -/
def treat_as_proper (propers : Finset String) (res : ClassificationResult) : Prop :=
  res.word ∈ propers ∨
    (pyIslower res.word = true ∧ pyLower res.word ∈ propers.image pyLower)

instance (propers : Finset String) (res : ClassificationResult) :
    Decidable (treat_as_proper propers res) := by
  unfold treat_as_proper; infer_instance

/-- `classify_words` (classifier.py lines 131-157): the accumulation loop,
phrased as structural recursion (the loop appends to the end of each bucket;
the recursion conses onto the front of the recursively built tail, which
builds the same list). -/
def classify_words (commons propers : Finset String) :
    List String → List String × List String
  | [] => ([], [])
  | raw :: rest =>
    let res := classify_word commons propers raw
    let (ambiguous, proper) := classify_words commons propers rest
    if res.word = "" ∨ res.label = "unknown" then (ambiguous, proper)
    else if treat_as_common commons res ∧ ¬ treat_as_proper propers res then
      (res.word :: ambiguous, proper)
    else (ambiguous, res.word :: proper)

/-- Python `dict.fromkeys`, used for order-preserving de-duplication in
`classify_file`: keep the first occurrence of each element. -/
def dict_fromkeys {α : Type} [DecidableEq α] : List α → List α
  | [] => []
  | a :: rest => a :: dict_fromkeys (rest.filter (fun b => b ≠ a))
termination_by l => l.length
decreasing_by
  simp only [List.length_cons]
  exact Nat.lt_succ_of_le (List.length_filter_le _ _)

/-- `classify_file` (classifier.py lines 160-169) with file I/O factored out:
takes the raw input lines and returns the two sequences of lines written to
the ambiguous and proper output files (`sorted(dict.fromkeys(...))`). -/
def classify_file_words (commons propers : Finset String) (lines : List String) :
    List String × List String :=
  let words := (lines.map pyStrip).filter (fun l => l ≠ "")
  let (ambiguous, proper) := classify_words commons propers words
  (List.insertionSort string_le (dict_fromkeys ambiguous),
   List.insertionSort string_le (dict_fromkeys proper))

example : classify_word ∅ ∅ "  " = ⟨"", "unknown", 0, "empty"⟩ := by
  with_unfolding_all decide
example : (classify_word ∅ ∅ "dog").label = "likely non-ambiguous" := by
  with_unfolding_all decide
example : (classify_word {"dog"} ∅ "dog").label = "likely ambiguous" := by
  with_unfolding_all decide
example : classify_words {"dog"} ∅ ["dog", "Paris"] = (["dog"], ["Paris"]) := by
  with_unfolding_all decide
example : classify_words {"Paris"} {"Paris"} ["Paris"] = ([], ["Paris"]) := by
  with_unfolding_all decide
example : classify_file_words {"dog"} ∅ ["b", "a", "a", "dog"] =
    (["dog"], ["a", "b"]) := by with_unfolding_all decide

/-! ### evaluation.py -/

abbrev Label := String

structure EvaluationReport where
  total_words : ℕ
  total_common : ℕ
  total_proper : ℕ
  predicted_common : ℕ
  predicted_proper : ℕ
  true_positive : ℕ
  true_negative : ℕ
  false_positive : ℕ
  false_negative : ℕ
  accuracy : ℚ
  precision : Option ℚ
  «recall» : Option ℚ
  f1 : Option ℚ
  missing_words : List String
  false_positive_words : List String
  false_negative_words : List String
  extra_common_predictions : List String
  extra_proper_predictions : List String
deriving DecidableEq, Repr

/-- `_normalise_truth` (evaluation.py lines 181-187). -/
def _normalise_truth (label : String) : Except String Label :=
  let lowered := pyLower (pyStrip label)
  if lowered = "common" ∨ lowered = "ambiguous" ∨ lowered = "ambiguous noun" then
    Except.ok "common"
  else if lowered = "proper" ∨ lowered = "proper noun" then Except.ok "proper"
  else Except.error ("Unrecognised label '" ++ label ++ "'. Expected 'Common' or 'Proper'.")

/-- The row loop of `_load_gold_labels` (evaluation.py lines 159-171), with
the accumulated `labels` dict modelled as an insertion-ordered association
list.  A repeated word with an agreeing label leaves the dict unchanged
(Python re-assigns the same value); a disagreeing label raises. -/
def _load_gold_labels_loop (labels : List (String × Label)) :
    List (String × String) → Except String (List (String × Label))
  | [] => Except.ok labels
  | (rawWord, rawTruth) :: rest =>
    let word := pyStrip rawWord
    if word = "" then _load_gold_labels_loop labels rest
    else
      match _normalise_truth rawTruth with
      | Except.error e => Except.error e
      | Except.ok truth =>
        match labels.lookup word with
        | some existing =>
          if existing ≠ truth then
            Except.error ("Conflicting labels detected for word '" ++ word ++ "': '" ++
              existing ++ "' vs '" ++ truth ++ "'.")
          else _load_gold_labels_loop labels rest
        | none => _load_gold_labels_loop (labels ++ [(word, truth)]) rest

/-- `_load_gold_labels` (evaluation.py lines 151-172) with the TSV reader
factored out: takes the parsed (Word, Truth) rows. -/
def _load_gold_labels (rows : List (String × String)) :
    Except String (List (String × Label)) :=
  _load_gold_labels_loop [] rows

/-- `_load_prediction_words` (evaluation.py lines 175-178). -/
def _load_prediction_words (lines : List String) : Finset String :=
  ((lines.map pyStrip).filter (fun l => l ≠ "")).toFinset

/-! The intermediate sets of `evaluate_against_gold` (evaluation.py lines
73-100), each as a named function of the parsed gold labels and the two
prediction files' lines. -/

def gold_words (labels : List (String × Label)) : Finset String :=
  (labels.map Prod.fst).toFinset

def gold_common (labels : List (String × Label)) : Finset String :=
  ((labels.filter (fun p => p.2 = "common")).map Prod.fst).toFinset

def gold_proper (labels : List (String × Label)) : Finset String :=
  gold_words labels \ gold_common labels

def predicted_common (labels : List (String × Label)) (cl : List String) : Finset String :=
  _load_prediction_words cl ∩ gold_words labels

def predicted_proper (labels : List (String × Label)) (pl : List String) : Finset String :=
  _load_prediction_words pl ∩ gold_words labels

def overlapping_predictions (labels : List (String × Label)) (cl pl : List String) :
    Finset String :=
  predicted_common labels cl ∩ predicted_proper labels pl

def extra_common_set (labels : List (String × Label)) (cl : List String) : Finset String :=
  _load_prediction_words cl \ gold_words labels

def extra_proper_set (labels : List (String × Label)) (pl : List String) : Finset String :=
  _load_prediction_words pl \ gold_words labels

def missing_words_set (labels : List (String × Label)) (cl pl : List String) : Finset String :=
  gold_words labels \ (predicted_common labels cl ∪ predicted_proper labels pl)

def true_positive_words (labels : List (String × Label)) (cl : List String) : Finset String :=
  gold_common labels ∩ predicted_common labels cl

def false_negative_words (labels : List (String × Label)) (cl : List String) : Finset String :=
  gold_common labels \ predicted_common labels cl

def false_positive_words (labels : List (String × Label)) (cl : List String) : Finset String :=
  predicted_common labels cl ∩ gold_proper labels

def true_negative_words (labels : List (String × Label)) (pl : List String) : Finset String :=
  gold_proper labels ∩ predicted_proper labels pl

/-- The sort key of `_sort_words` (evaluation.py line 191): ascending on the
Python pair `(item.lower(), item)`, i.e. case-insensitive primary key with
the literal string as tiebreak. -/
def _sort_key_le (a b : String) : Prop :=
  string_lt (pyLower a) (pyLower b) ∨ (pyLower a = pyLower b ∧ string_le a b)

instance : DecidableRel _sort_key_le := fun a b => by
  unfold _sort_key_le; infer_instance

instance : IsTrans String _sort_key_le :=
  ⟨fun a b c hab hbc => by
    rcases hab with h1 | ⟨e1, l1⟩ <;> rcases hbc with h2 | ⟨e2, l2⟩
    · exact Or.inl ((string_lt_iff _ _).mpr
        (lt_trans ((string_lt_iff _ _).mp h1) ((string_lt_iff _ _).mp h2)))
    · exact Or.inl (e2 ▸ h1)
    · exact Or.inl (e1 ▸ h2)
    · exact Or.inr ⟨e1.trans e2, Trans.trans l1 l2⟩⟩

instance : IsTotal String _sort_key_le :=
  ⟨fun a b => by
    rcases lt_trichotomy (pyLower a) (pyLower b) with h | h | h
    · exact Or.inl (Or.inl ((string_lt_iff _ _).mpr h))
    · rcases total_of string_le a b with hl | hl
      · exact Or.inl (Or.inr ⟨h, hl⟩)
      · exact Or.inr (Or.inr ⟨h.symm, hl⟩)
    · exact Or.inr (Or.inl ((string_lt_iff _ _).mpr h))⟩

instance : IsAntisymm String _sort_key_le :=
  ⟨fun a b hab hba => by
    rcases hab with h1 | ⟨e1, l1⟩
    · rcases hba with h2 | ⟨e2, _⟩
      · exact absurd ((string_lt_iff _ _).mp h1) (lt_asymm ((string_lt_iff _ _).mp h2))
      · exact absurd ((string_lt_iff _ _).mp h1) (e2 ▸ lt_irrefl _)
    · rcases hba with h2 | ⟨_, l2⟩
      · exact absurd ((string_lt_iff _ _).mp h2) (e1 ▸ lt_irrefl _)
      · exact antisymm l1 l2⟩

/-- `_sort_words` (evaluation.py lines 190-191): Python
`sorted(words, key=lambda item: (item.lower(), item))` on a set of words is
the enumeration of the set in ascending `_sort_key_le` order. -/
def _sort_words (words : Finset String) : List String :=
  words.sort _sort_key_le

/-- The consistency-error message of evaluation.py lines 89-93: the count of
offending words and a preview of up to five of them, sorted. -/
def overlap_message (overlapping : Finset String) : String :=
  "Found " ++ toString overlapping.card ++
    " words present in both prediction files; examples: " ++
    String.intercalate ", " ((overlapping.sort string_le).take 5) ++ "."

/-- The `EvaluationReport` built by `evaluate_against_gold` (evaluation.py
lines 95-148) once the gold file has parsed and the overlap check has
passed. -/
def mk_report (labels : List (String × Label)) (cl pl : List String) : EvaluationReport :=
  let total_words := (gold_words labels).card
  let true_positive := (true_positive_words labels cl).card
  let true_negative := (true_negative_words labels pl).card
  let false_positive := (false_positive_words labels cl).card
  let false_negative := (false_negative_words labels cl).card
  let accuracy : ℚ :=
    if total_words ≠ 0 then ((true_positive + true_negative : ℕ) : ℚ) / (total_words : ℚ)
    else 0
  let precision : Option ℚ :=
    if true_positive + false_positive ≠ 0 then
      some ((true_positive : ℚ) / ((true_positive + false_positive : ℕ) : ℚ))
    else none
  let recallv : Option ℚ :=
    if true_positive + false_negative ≠ 0 then
      some ((true_positive : ℚ) / ((true_positive + false_negative : ℕ) : ℚ))
    else none
  let f1 : Option ℚ :=
    match precision, recallv with
    | some p, some r => if p + r ≠ 0 then some (2 * p * r / (p + r)) else none
    | _, _ => none
  { total_words := total_words
    total_common := (gold_common labels).card
    total_proper := (gold_proper labels).card
    predicted_common := (predicted_common labels cl).card
    predicted_proper := (predicted_proper labels pl).card
    true_positive := true_positive
    true_negative := true_negative
    false_positive := false_positive
    false_negative := false_negative
    accuracy := accuracy
    precision := precision
    «recall» := recallv
    f1 := f1
    missing_words := _sort_words (missing_words_set labels cl pl)
    false_positive_words := _sort_words (false_positive_words labels cl)
    false_negative_words := _sort_words (false_negative_words labels cl)
    extra_common_predictions := _sort_words (extra_common_set labels cl)
    extra_proper_predictions := _sort_words (extra_proper_set labels pl) }

/-- `evaluate_against_gold` (evaluation.py lines 66-148) with file I/O
factored out: takes the parsed gold rows and the two prediction files'
lines. -/
def evaluate_against_gold (goldRows : List (String × String))
    (ambiguousLines properLines : List String) : Except String EvaluationReport :=
  match _load_gold_labels goldRows with
  | Except.error e => Except.error e
  | Except.ok gold_labels =>
    if (overlapping_predictions gold_labels ambiguousLines properLines).Nonempty then
      Except.error (overlap_message (overlapping_predictions gold_labels ambiguousLines properLines))
    else Except.ok (mk_report gold_labels ambiguousLines properLines)

/-! ### Helper lemmas about `classify_word` -/

theorem classify_word_word (commons propers : Finset String) (w : String) :
    (classify_word commons propers w).word = pyStrip w := by
  simp only [classify_word]
  split <;> rfl

/-- The final decision rule of `classify_word`, as a statement about an
arbitrary accumulated score. -/
theorem decision_label (s : ℚ) :
    ((if s ≤ _NOT_THRESHOLD then "likely non-ambiguous"
        else if _COMMON_THRESHOLD ≤ s then "likely ambiguous" else "likely non-ambiguous") =
      "likely ambiguous" ↔ (_COMMON_THRESHOLD ≤ s ∧ ¬ s ≤ _NOT_THRESHOLD)) := by
  split_ifs with h1 h2
  · exact iff_of_false (by decide) (fun hc => hc.2 h1)
  · exact iff_of_true rfl ⟨h2, h1⟩
  · exact iff_of_false (by decide) (fun hc => h2 hc.1)

theorem classify_word_label_eq (commons propers : Finset String) (w : String)
    (h : pyStrip w ≠ "") :
    (classify_word commons propers w).label =
      (if (classify_word commons propers w).score ≤ _NOT_THRESHOLD then "likely non-ambiguous"
       else if _COMMON_THRESHOLD ≤ (classify_word commons propers w).score then "likely ambiguous"
       else "likely non-ambiguous") := by
  simp only [classify_word, if_neg h]

theorem classify_word_label_ne_unknown (commons propers : Finset String) (w : String)
    (h : pyStrip w ≠ "") :
    (classify_word commons propers w).label ≠ "unknown" := by
  rw [classify_word_label_eq commons propers w h]
  split_ifs <;> decide

theorem classify_word_empty (commons propers : Finset String) (w : String)
    (h : pyStrip w = "") :
    classify_word commons propers w = ⟨"", "unknown", 0, "empty"⟩ := by
  simp only [classify_word, h, eq_self_iff_true, if_true]

/-- C8: the word scorer returns `⟨"unknown", 0.0, "empty"⟩` on inputs whose
trimmed form is empty, skipping all scoring; on every other input the label
is "likely ambiguous" exactly when the accumulated score clears
`_COMMON_THRESHOLD` and does not trip the unconditional `_NOT_THRESHOLD`
floor, and the floor always forces "likely non-ambiguous". -/
theorem classify_word_decision (commons propers : Finset String) (w : String) :
    (pyStrip w = "" → classify_word commons propers w = ⟨"", "unknown", 0, "empty"⟩) ∧
    (pyStrip w ≠ "" →
      ((classify_word commons propers w).label = "likely ambiguous" ↔
        (_COMMON_THRESHOLD ≤ (classify_word commons propers w).score ∧
          ¬ (classify_word commons propers w).score ≤ _NOT_THRESHOLD)) ∧
      ((classify_word commons propers w).score ≤ _NOT_THRESHOLD →
        (classify_word commons propers w).label = "likely non-ambiguous")) := by
  refine ⟨fun h => classify_word_empty commons propers w h, fun h => ⟨?_, fun hfloor => ?_⟩⟩
  · rw [classify_word_label_eq commons propers w h]
    exact decision_label _
  · rw [classify_word_label_eq commons propers w h, if_pos hfloor]

/-- Witness for C8 at the concrete inputs `"  "` (empty after trimming) and
`"dog"` (non-empty). -/
theorem classify_word_decision_witness :
    (classify_word ∅ ∅ "  " = ⟨"", "unknown", 0, "empty"⟩) ∧
    (((classify_word ∅ ∅ "dog").label = "likely ambiguous" ↔
        (_COMMON_THRESHOLD ≤ (classify_word ∅ ∅ "dog").score ∧
          ¬ (classify_word ∅ ∅ "dog").score ≤ _NOT_THRESHOLD)) ∧
      ((classify_word ∅ ∅ "dog").score ≤ _NOT_THRESHOLD →
        (classify_word ∅ ∅ "dog").label = "likely non-ambiguous")) :=
  ⟨(classify_word_decision ∅ ∅ "  ").1 (by with_unfolding_all decide),
   (classify_word_decision ∅ ∅ "dog").2 (by with_unfolding_all decide)⟩

/-! ### C10: `classify_words` is a partition of the trimmed non-empty inputs -/

/-- The bucket decision `classify_words` makes for one raw input word. -/
def bucket_common (commons propers : Finset String) (raw : String) : Prop :=
  treat_as_common commons (classify_word commons propers raw) ∧
    ¬ treat_as_proper propers (classify_word commons propers raw)

instance (commons propers : Finset String) (raw : String) :
    Decidable (bucket_common commons propers raw) := by
  unfold bucket_common; infer_instance

theorem classify_words_eq_partition (commons propers : Finset String) (ws : List String) :
    (classify_words commons propers ws).1 =
      ((ws.filter (fun w => pyStrip w ≠ "")).filter
        (fun w => bucket_common commons propers w)).map pyStrip ∧
    (classify_words commons propers ws).2 =
      ((ws.filter (fun w => pyStrip w ≠ "")).filter
        (fun w => ¬ bucket_common commons propers w)).map pyStrip ∧
    (classify_words commons propers ws).1.length + (classify_words commons propers ws).2.length =
      (ws.filter (fun w => pyStrip w ≠ "")).length := by
  induction ws with
  | nil => exact ⟨rfl, rfl, rfl⟩
  | cons raw rest ih =>
    obtain ⟨ih1, ih2, ih3⟩ := ih
    rcases hsplit : classify_words commons propers rest with ⟨amb, prop⟩
    rw [hsplit] at ih1 ih2 ih3
    simp only [ne_eq, decide_not] at ih1 ih2 ih3
    have hword : (classify_word commons propers raw).word = pyStrip raw :=
      classify_word_word commons propers raw
    have hcw : classify_words commons propers (raw :: rest) =
        (if (classify_word commons propers raw).word = "" ∨
            (classify_word commons propers raw).label = "unknown" then (amb, prop)
         else if treat_as_common commons (classify_word commons propers raw) ∧
            ¬ treat_as_proper propers (classify_word commons propers raw) then
           ((classify_word commons propers raw).word :: amb, prop)
         else (amb, (classify_word commons propers raw).word :: prop)) := by
      simp only [classify_words, hsplit]
    by_cases h0 : pyStrip raw = ""
    · have hcond : (classify_word commons propers raw).word = "" ∨
          (classify_word commons propers raw).label = "unknown" := Or.inl (hword.trans h0)
      rw [hcw, if_pos hcond]
      refine ⟨?_, ?_, ?_⟩
      · simpa [h0] using ih1
      · simpa [h0] using ih2
      · simpa [h0] using ih3
    · have hcond : ¬ ((classify_word commons propers raw).word = "" ∨
          (classify_word commons propers raw).label = "unknown") := by
        rintro (hw | hl)
        · exact h0 (hword.symm.trans hw)
        · exact classify_word_label_ne_unknown commons propers raw h0 hl
      by_cases hb : bucket_common commons propers raw
      · have hb' : treat_as_common commons (classify_word commons propers raw) ∧
            ¬ treat_as_proper propers (classify_word commons propers raw) := hb
        rw [hcw, if_neg hcond, if_pos hb']
        refine ⟨?_, ?_, ?_⟩
        · simp [h0, hb, ih1, hword]
        · simp [h0, hb, ih2]
        · simp only [List.length_cons]
          simp [h0]
          omega
      · have hb' : ¬ (treat_as_common commons (classify_word commons propers raw) ∧
            ¬ treat_as_proper propers (classify_word commons propers raw)) := hb
        rw [hcw, if_neg hcond, if_neg hb']
        refine ⟨?_, ?_, ?_⟩
        · simp [h0, hb, ih1]
        · simp [h0, hb, ih2, hword]
        · simp only [List.length_cons]
          simp [h0]
          omega

/-- C10: every input word with a non-empty trimmed form lands, as its trimmed
form, in exactly one of the two buckets, in input order and with
multiplicity; hence the two output lengths sum to the number of inputs with
non-empty trimmed form. -/
theorem classify_words_partition (commons propers : Finset String) (ws : List String) :
    (classify_words commons propers ws).1 =
      ((ws.filter (fun w => pyStrip w ≠ "")).filter
        (fun w => bucket_common commons propers w)).map pyStrip ∧
    (classify_words commons propers ws).2 =
      ((ws.filter (fun w => pyStrip w ≠ "")).filter
        (fun w => ¬ bucket_common commons propers w)).map pyStrip ∧
    (classify_words commons propers ws).1.length + (classify_words commons propers ws).2.length =
      (ws.filter (fun w => pyStrip w ≠ "")).length :=
  classify_words_eq_partition commons propers ws

/-- C3: a word that exact-matches the proper lexicon is never placed in the
ambiguous bucket by the batch classifier, whatever its raw score; and the
final bucket of any single non-blank word is the ambiguous one exactly when
`treat_as_common` holds and `treat_as_proper` does not. -/
theorem proper_lexicon_override (commons propers : Finset String) (w : String)
    (h : w ∈ propers) :
    w ∉ (classify_words commons propers [w]).1 ∧
    ∀ v : String, pyStrip v ≠ "" →
      classify_words commons propers [v] =
        (if bucket_common commons propers v then ([pyStrip v], []) else ([], [pyStrip v])) := by
  constructor
  case right =>
    intro v hv
    rcases classify_words_eq_partition commons propers [v] with ⟨h1, h2, -⟩
    by_cases hb : bucket_common commons propers v <;>
      exact Prod.ext (by rw [h1]; simp [hv, hb]) (by rw [h2]; simp [hv, hb])
  intro hmem
  simp only [classify_words] at hmem
  by_cases h0 : (classify_word commons propers w).word = "" ∨
      (classify_word commons propers w).label = "unknown"
  · rw [if_pos h0] at hmem
    exact List.not_mem_nil w hmem
  · rw [if_neg h0] at hmem
    by_cases hb : treat_as_common commons (classify_word commons propers w) ∧
        ¬ treat_as_proper propers (classify_word commons propers w)
    · rw [if_pos hb] at hmem
      rcases List.mem_cons.mp hmem with heq | hnil
      · exact hb.2 (Or.inl (by rw [← heq]; exact h))
      · exact List.not_mem_nil w hnil
    · rw [if_neg hb] at hmem
      exact List.not_mem_nil w hmem

/-- Witness for C3: "Paris" with a proper lexicon containing it. -/
theorem proper_lexicon_override_witness :
    "Paris" ∈ ({"Paris"} : Finset String) ∧
      "Paris" ∉ (classify_words ∅ {"Paris"} ["Paris"]).1 :=
  ⟨by decide, (proper_lexicon_override ∅ {"Paris"} "Paris" (by decide)).1⟩

/-! ### C1: the batch classifier's returned lists vs. the persisted lists -/

theorem mem_dict_fromkeys {α : Type} [DecidableEq α] (l : List α) (a : α) :
    a ∈ dict_fromkeys l ↔ a ∈ l := by
  induction l using dict_fromkeys.induct with
  | case1 => simp [dict_fromkeys]
  | case2 b rest ih =>
    simp only [dict_fromkeys, List.mem_cons, ih, List.mem_filter]
    by_cases hab : a = b
    · simp [hab]
    · simp [hab]

theorem nodup_dict_fromkeys {α : Type} [DecidableEq α] (l : List α) :
    (dict_fromkeys l).Nodup := by
  induction l using dict_fromkeys.induct with
  | case1 => simp [dict_fromkeys]
  | case2 b rest ih =>
    simp only [dict_fromkeys, List.nodup_cons]
    refine ⟨fun hmem => ?_, ih⟩
    rw [mem_dict_fromkeys] at hmem
    simp at hmem

/-- C1 (amended): the lists `classify_file` persists are duplicate-free and
in ascending plain lexicographic order, and the whole pipeline is
deterministic; the lists `classify_words` returns are in input order and
not de-duplicated (see the counterexample). -/
theorem classify_file_words_sorted (commons propers : Finset String) (lines : List String) :
    ((classify_file_words commons propers lines).1.Pairwise string_le ∧
      (classify_file_words commons propers lines).1.Nodup) ∧
    ((classify_file_words commons propers lines).2.Pairwise string_le ∧
      (classify_file_words commons propers lines).2.Nodup) ∧
    classify_file_words commons propers lines = classify_file_words commons propers lines := by
  rcases hsplit : classify_words commons propers ((lines.map pyStrip).filter (fun l => l ≠ "")) with
    ⟨amb, prop⟩
  have h1 : (classify_file_words commons propers lines).1 =
      List.insertionSort string_le (dict_fromkeys amb) := by
    simp only [classify_file_words, hsplit]
  have h2 : (classify_file_words commons propers lines).2 =
      List.insertionSort string_le (dict_fromkeys prop) := by
    simp only [classify_file_words, hsplit]
  refine ⟨⟨?_, ?_⟩, ⟨?_, ?_⟩, rfl⟩
  · rw [h1]; exact List.sorted_insertionSort string_le (dict_fromkeys amb)
  · rw [h1]
    exact ((List.perm_insertionSort string_le (dict_fromkeys amb)).nodup_iff).mpr
      (nodup_dict_fromkeys amb)
  · rw [h2]; exact List.sorted_insertionSort string_le (dict_fromkeys prop)
  · rw [h2]
    exact ((List.perm_insertionSort string_le (dict_fromkeys prop)).nodup_iff).mpr
      (nodup_dict_fromkeys prop)

/-- For every lexicon contents, feeding the same non-blank word twice to
`classify_words` puts both copies in the same bucket, so one of the two
returned lists contains a duplicate: the dedup+sort law fails for the lists
`classify_words` returns, whatever `data/common.txt` and `data/proper.txt`
contain. -/
theorem classify_words_duplicate_any_lexicon (commons propers : Finset String) :
    ¬ ((classify_words commons propers ["x", "x"]).1.Nodup ∧
       (classify_words commons propers ["x", "x"]).2.Nodup) := by
  obtain ⟨h1, h2, -⟩ := classify_words_eq_partition commons propers ["x", "x"]
  have hx : pyStrip "x" = "x" := by decide
  rintro ⟨hn1, hn2⟩
  by_cases hb : bucket_common commons propers "x"
  · rw [h1] at hn1
    simp [hx, hb, List.filter_cons] at hn1
  · rw [h2] at hn2
    simp [hx, hb, List.filter_cons] at hn2

/-- Modelled from the spec: the contents of the lexicon data files
`data/common.txt` and `data/proper.txt` (read by `_load_common_words` and
`_load_proper_words`) are not under `src/`, and §4.1 of the spec leaves
their contents unspecified (static newline-delimited word lists).  These
placeholder sets stand in for them in concrete counterexamples;
`classify_words_duplicate_any_lexicon` shows the refutation below holds for
every possible contents. -/
def data_common_words : Finset String := {"bank", "dog", "apple", "run", "book"}

/-- Modelled from the spec: see `data_common_words`. -/
def data_proper_words : Finset String := {"Paris", "London", "Alice"}

/-- Counterexample to C1 as stated: on the input `["x", "x"]` the batch
classifier returns the word twice in one bucket list, so the lists returned
by `classify_words` are not de-duplicated (dedup+sort happens only when
`classify_file` persists them). -/
theorem classify_words_unsorted_counterexample :
    (classify_words data_common_words data_proper_words ["x", "x"]).2 = ["x", "x"] ∧
    ¬ (classify_words data_common_words data_proper_words ["x", "x"]).2.Nodup := by
  with_unfolding_all decide

/-! ### Association-list helpers for the gold-label dict -/

theorem lookup_some_mem {β : Type} {l : List (String × β)} {a : String} {b : β}
    (h : l.lookup a = some b) : (a, b) ∈ l := by
  induction l with
  | nil => simp [List.lookup] at h
  | cons p rest ih =>
    rcases p with ⟨k, v⟩
    by_cases hk : a = k
    · subst hk
      simp [List.lookup] at h
      simp [h]
    · rw [List.lookup, beq_eq_false_iff_ne.mpr hk] at h
      exact List.mem_cons_of_mem _ (ih h)

theorem lookup_isSome_iff_mem_keys {β : Type} {l : List (String × β)} {a : String} :
    (l.lookup a).isSome = true ↔ a ∈ l.map Prod.fst := by
  induction l with
  | nil => simp [List.lookup]
  | cons p rest ih =>
    rcases p with ⟨k, v⟩
    by_cases hk : a = k
    · subst hk; simp [List.lookup]
    · rw [List.lookup, beq_eq_false_iff_ne.mpr hk]
      simp only [List.map_cons, List.mem_cons, ih]
      simp [hk]

theorem mem_lookup_of_keys_nodup {β : Type} {l : List (String × β)} {a : String} {b : β}
    (hn : (l.map Prod.fst).Nodup) (h : (a, b) ∈ l) : l.lookup a = some b := by
  induction l with
  | nil => simp at h
  | cons p rest ih =>
    rcases p with ⟨k, v⟩
    rw [List.map_cons, List.nodup_cons] at hn
    rcases List.mem_cons.mp h with heq | hmem
    · injection heq with h1 h2
      subst h1; subst h2
      simp [List.lookup]
    · have hk : a ≠ k := by
        rintro rfl
        exact hn.1 (List.mem_map.mpr ⟨(a, b), hmem, rfl⟩)
      rw [List.lookup, beq_eq_false_iff_ne.mpr hk]
      exact ih hn.2 hmem

theorem keys_nodup_val_eq {β : Type} {l : List (String × β)} {a : String} {b1 b2 : β}
    (hn : (l.map Prod.fst).Nodup) (h1 : (a, b1) ∈ l) (h2 : (a, b2) ∈ l) : b1 = b2 := by
  have e1 := mem_lookup_of_keys_nodup hn h1
  have e2 := mem_lookup_of_keys_nodup hn h2
  rw [e1] at e2
  exact Option.some_injective β e2

theorem lookup_append {β : Type} (l1 l2 : List (String × β)) (a : String) :
    (l1 ++ l2).lookup a = ((l1.lookup a).or (l2.lookup a)) := by
  induction l1 with
  | nil => simp [List.lookup]
  | cons p rest ih =>
    rcases p with ⟨k, v⟩
    by_cases hk : a = k
    · subst hk
      rw [List.cons_append, List.lookup, List.lookup]
      simp
    · rw [List.cons_append, List.lookup, List.lookup, beq_eq_false_iff_ne.mpr hk]
      exact ih

/-! ### C6: gold-file conflict detection -/

deriving instance DecidableEq for Except

theorem normalise_truth_ok_cases {s t : String} (h : _normalise_truth s = Except.ok t) :
    t = "common" ∨ t = "proper" := by
  simp only [_normalise_truth] at h
  split_ifs at h with h1 h2
  · injection h with h'
    exact Or.inl h'.symm
  · injection h with h'
    exact Or.inr h'.symm

/-- The normalized (word, label) entries a row list gives rise to, in row
order: blank words are skipped and each surviving row contributes its
trimmed word with its normalized Truth label. -/
def gold_entries (rows : List (String × String)) : List (String × Label) :=
  rows.filterMap (fun row =>
    if pyStrip row.1 = "" then none
    else
      match _normalise_truth row.2 with
      | Except.ok t => some (pyStrip row.1, t)
      | Except.error _ => none)

/-- Two gold entries agree: same word implies same label. -/
def label_compat (p q : String × Label) : Prop := p.1 = q.1 → p.2 = q.2

theorem label_compat_symm : Symmetric label_compat :=
  fun _ _ h heq => (h heq.symm).symm

theorem pairwise_compat_of_keys_nodup (l : List (String × Label))
    (hn : (l.map Prod.fst).Nodup) : l.Pairwise label_compat :=
  (List.pairwise_map.mp hn).imp (fun hne heq => absurd heq hne)

/-- Master lemma for the `_load_gold_labels` row loop: starting from an
accumulated dict with distinct keys, the loop raises an error exactly when
the accumulated dict extended with the remaining rows' entries contains two
entries for one word with different labels; on success, lookups in the
result agree with first-match lookups in that extended entry list. -/
theorem gold_loop_spec (rows : List (String × String)) :
    ∀ labels : List (String × Label),
      (labels.map Prod.fst).Nodup →
      (∀ p ∈ rows, pyStrip p.1 ≠ "" → (_normalise_truth p.2).isOk = true) →
      ((∃ e, _load_gold_labels_loop labels rows = Except.error e) ↔
        ¬ (labels ++ gold_entries rows).Pairwise label_compat) ∧
      (∀ out, _load_gold_labels_loop labels rows = Except.ok out →
        ∀ w, out.lookup w = (labels ++ gold_entries rows).lookup w) := by
  induction rows with
  | nil =>
    intro labels hn _
    refine ⟨⟨?_, ?_⟩, ?_⟩
    · rintro ⟨e, he⟩
      simp [_load_gold_labels_loop] at he
    · intro hnp
      exact absurd (by simpa [gold_entries] using pairwise_compat_of_keys_nodup labels hn) hnp
    · intro out hout w
      simp only [_load_gold_labels_loop, Except.ok.injEq] at hout
      subst hout
      simp [gold_entries]
  | cons row rest ih =>
    intro labels hn hnorm
    rcases row with ⟨rw0, rt0⟩
    have hnorm' : ∀ p ∈ rest, pyStrip p.1 ≠ "" → (_normalise_truth p.2).isOk = true :=
      fun p hp => hnorm p (List.mem_cons_of_mem _ hp)
    by_cases h0 : pyStrip rw0 = ""
    · have hloop : _load_gold_labels_loop labels ((rw0, rt0) :: rest) =
          _load_gold_labels_loop labels rest := by
        simp [_load_gold_labels_loop, h0]
      have hent : gold_entries ((rw0, rt0) :: rest) = gold_entries rest := by
        simp [gold_entries, h0]
      rw [hloop, hent]
      exact ih labels hn hnorm'
    · have hok := hnorm (rw0, rt0) (List.mem_cons_self _ _) h0
      obtain ⟨t, ht⟩ : ∃ t, _normalise_truth rt0 = Except.ok t := by
        cases hmt : _normalise_truth rt0 with
        | ok t => exact ⟨t, rfl⟩
        | error e => rw [hmt] at hok; simp [Except.toBool] at hok
      have hent : gold_entries ((rw0, rt0) :: rest) =
          (pyStrip rw0, t) :: gold_entries rest := by
        simp [gold_entries, h0, ht]
      cases hlk : labels.lookup (pyStrip rw0) with
      | some existing =>
        have hmem : (pyStrip rw0, existing) ∈ labels := lookup_some_mem hlk
        by_cases hne : existing = t
        · subst hne
          have hloop : _load_gold_labels_loop labels ((rw0, rt0) :: rest) =
              _load_gold_labels_loop labels rest := by
            simp [_load_gold_labels_loop, h0, ht, hlk]
          rw [hloop, hent]
          obtain ⟨ihiff, ihlk⟩ := ih labels hn hnorm'
          constructor
          · rw [ihiff]
            constructor
            · intro hnp hp
              exact hnp (hp.sublist
                (List.Sublist.append_left ((List.Sublist.refl _).cons _) labels))
            · intro hnp hp
              apply hnp
              rw [List.pairwise_append] at hp ⊢
              obtain ⟨hpl, hpe, hcross⟩ := hp
              refine ⟨hpl, ?_, ?_⟩
              · rw [List.pairwise_cons]
                exact ⟨fun q hq heq => hcross _ hmem q hq heq, hpe⟩
              · intro a ha b hb
                rcases List.mem_cons.mp hb with rfl | hb'
                · intro heq
                  have ha' : (a.1, a.2) ∈ labels := by simpa using ha
                  rw [heq] at ha'
                  exact keys_nodup_val_eq hn ha' hmem
                · exact hcross a ha b hb'
          · intro out hout w
            rw [ihlk out hout w, lookup_append, lookup_append]
            by_cases hw : w = pyStrip rw0
            · subst hw
              rw [hlk]
              rfl
            · congr 1
              rw [List.lookup, beq_eq_false_iff_ne.mpr hw]
        · have hloop : _load_gold_labels_loop labels ((rw0, rt0) :: rest) =
              Except.error ("Conflicting labels detected for word '" ++ pyStrip rw0 ++
                "': '" ++ existing ++ "' vs '" ++ t ++ "'.") := by
            simp [_load_gold_labels_loop, h0, ht, hlk, hne]
          rw [hloop, hent]
          refine ⟨iff_of_true ⟨_, rfl⟩ ?_, ?_⟩
          · intro hp
            rw [List.pairwise_append] at hp
            exact hne (hp.2.2 _ hmem _ (List.mem_cons_self _ _) rfl)
          · intro out hout
            exact absurd hout (by simp)
      | none =>
        have hnotmem : pyStrip rw0 ∉ labels.map Prod.fst := by
          intro hmem0
          have hsome := lookup_isSome_iff_mem_keys.mpr hmem0
          rw [hlk] at hsome
          simp at hsome
        have hn' : ((labels ++ [(pyStrip rw0, t)]).map Prod.fst).Nodup := by
          rw [List.map_append, List.nodup_append]
          refine ⟨hn, by simp, ?_⟩
          intro a ha hb
          simp at hb
          subst hb
          exact hnotmem ha
        have hloop : _load_gold_labels_loop labels ((rw0, rt0) :: rest) =
            _load_gold_labels_loop (labels ++ [(pyStrip rw0, t)]) rest := by
          simp [_load_gold_labels_loop, h0, ht, hlk]
        rw [hloop, hent]
        have hassoc : labels ++ [(pyStrip rw0, t)] ++ gold_entries rest =
            labels ++ (pyStrip rw0, t) :: gold_entries rest := by
          rw [List.append_assoc]
          rfl
        rw [← hassoc]
        exact ih (labels ++ [(pyStrip rw0, t)]) hn' hnorm'

/-- C6: for rows whose Truth values all normalize, gold parsing fails
exactly when the same (trimmed) word appears with two different normalized
labels, and on success each word maps to its first-seen normalized label. -/
theorem gold_conflict_iff (rows : List (String × String))
    (hnorm : ∀ p ∈ rows, pyStrip p.1 ≠ "" → (_normalise_truth p.2).isOk = true) :
    ((∃ e, _load_gold_labels rows = Except.error e) ↔
      ∃ p ∈ gold_entries rows, ∃ q ∈ gold_entries rows, p.1 = q.1 ∧ p.2 ≠ q.2) ∧
    (∀ labels, _load_gold_labels rows = Except.ok labels →
      ∀ w, labels.lookup w = (gold_entries rows).lookup w) := by
  obtain ⟨hiff, hlk⟩ := gold_loop_spec rows [] (by simp) hnorm
  simp only [List.nil_append] at hiff hlk
  refine ⟨?_, fun labels hout w => hlk labels hout w⟩
  simp only [_load_gold_labels]
  rw [hiff]
  constructor
  · intro hnp
    by_contra hne
    push_neg at hne
    apply hnp
    exact List.pairwise_of_reflexive_of_forall_ne (fun p heq => rfl)
      (fun a ha b hb _ => fun heq => hne a ha b hb heq)
  · rintro ⟨p, hp, q, hq, heq, hne2⟩ hpair
    have hne3 : p ≠ q := fun h => hne2 (congrArg Prod.snd h)
    exact hne2 (hpair.forall label_compat_symm hp hq hne3 heq)

/-- Witness for C6: the spec's "Paris appears as Common and as Proper"
example raises a conflict error, and agreeing repeats parse fine keeping the
first-seen value. -/
theorem gold_conflict_iff_witness :
    (∀ p ∈ ([("Paris", "Common"), ("Paris", "Proper")] : List (String × String)),
      pyStrip p.1 ≠ "" → (_normalise_truth p.2).isOk = true) ∧
    (∃ e, _load_gold_labels [("Paris", "Common"), ("Paris", "Proper")] = Except.error e) ∧
    _load_gold_labels [("dog", "Common"), ("dog", "ambiguous")] =
      Except.ok [("dog", "common")] :=
  ⟨by with_unfolding_all decide,
   (gold_conflict_iff [("Paris", "Common"), ("Paris", "Proper")]
       (by with_unfolding_all decide)).1.mpr
     ⟨("Paris", "common"), by with_unfolding_all decide,
      ("Paris", "proper"), by with_unfolding_all decide, rfl, by decide⟩,
   by with_unfolding_all decide⟩

/-! ### Inverting a successful evaluation -/

theorem evaluate_ok_elim {gr : List (String × String)} {cl pl : List String}
    {r : EvaluationReport} (h : evaluate_against_gold gr cl pl = Except.ok r) :
    ∃ labels, _load_gold_labels gr = Except.ok labels ∧
      ¬ (overlapping_predictions labels cl pl).Nonempty ∧
      r = mk_report labels cl pl := by
  unfold evaluate_against_gold at h
  cases hg : _load_gold_labels gr with
  | error e =>
    rw [hg] at h
    exact Except.noConfusion h
  | ok labels =>
    rw [hg] at h
    have h2 : (if (overlapping_predictions labels cl pl).Nonempty then
        Except.error (overlap_message (overlapping_predictions labels cl pl))
      else Except.ok (mk_report labels cl pl)) = Except.ok r := h
    by_cases hov : (overlapping_predictions labels cl pl).Nonempty
    · rw [if_pos hov] at h2
      exact Except.noConfusion h2
    · rw [if_neg hov] at h2
      injection h2 with h'
      exact ⟨labels, rfl, hov, h'.symm⟩

theorem gold_common_subset (labels : List (String × Label)) :
    gold_common labels ⊆ gold_words labels := by
  intro x hx
  simp only [gold_common, List.mem_toFinset, List.mem_map] at hx
  obtain ⟨p, hp, rfl⟩ := hx
  exact List.mem_toFinset.mpr (List.mem_map.mpr ⟨p, (List.mem_filter.mp hp).1, rfl⟩)

theorem predicted_common_subset (labels : List (String × Label)) (cl : List String) :
    predicted_common labels cl ⊆ gold_words labels :=
  Finset.inter_subset_right

theorem card_gc_add_gp (labels : List (String × Label)) :
    (gold_common labels).card + (gold_proper labels).card = (gold_words labels).card := by
  have h := Finset.card_sdiff_add_card_eq_card (gold_common_subset labels)
  unfold gold_proper
  omega

theorem overlap_empty_disjoint {labels : List (String × Label)} {cl pl : List String}
    (hov : ¬ (overlapping_predictions labels cl pl).Nonempty) :
    Disjoint (predicted_common labels cl) (predicted_proper labels pl) := by
  rw [Finset.not_nonempty_iff_eq_empty] at hov
  exact Finset.disjoint_iff_inter_eq_empty.mpr hov

/-- C7: in every successful report, TP+FN is the total number of
common-labelled gold words and TP+FP is the number of predicted-common words
restricted to the gold domain. -/
theorem confusion_count_identities (gr : List (String × String)) (cl pl : List String)
    (r : EvaluationReport) (h : evaluate_against_gold gr cl pl = Except.ok r) :
    r.true_positive + r.false_negative = r.total_common ∧
    r.true_positive + r.false_positive = r.predicted_common := by
  obtain ⟨labels, -, -, rfl⟩ := evaluate_ok_elim h
  constructor
  · show (true_positive_words labels cl).card + (false_negative_words labels cl).card =
      (gold_common labels).card
    exact Finset.card_inter_add_card_sdiff (gold_common labels) (predicted_common labels cl)
  · show (true_positive_words labels cl).card + (false_positive_words labels cl).card =
      (predicted_common labels cl).card
    have h1 : true_positive_words labels cl =
        predicted_common labels cl ∩ gold_common labels := by
      unfold true_positive_words
      exact Finset.inter_comm _ _
    have h2 : false_positive_words labels cl =
        predicted_common labels cl \ gold_common labels := by
      unfold false_positive_words gold_proper
      ext x
      simp only [Finset.mem_inter, Finset.mem_sdiff]
      constructor
      · rintro ⟨hx1, _, hx3⟩
        exact ⟨hx1, hx3⟩
      · rintro ⟨hx1, hx3⟩
        exact ⟨hx1, predicted_common_subset labels cl hx1, hx3⟩
    rw [h1, h2]
    exact Finset.card_inter_add_card_sdiff _ _

/-- C4 (amended): when a word appears in both prediction files AND in the
gold word set, `evaluate_against_gold` fails with the consistency error
built by `overlap_message`, which reports the count of offending words and a
sorted preview of up to five of them. -/
theorem overlap_error (gr : List (String × String)) (cl pl : List String)
    (labels : List (String × Label)) (w : String)
    (hg : _load_gold_labels gr = Except.ok labels)
    (hcl : w ∈ _load_prediction_words cl) (hpl : w ∈ _load_prediction_words pl)
    (hgw : w ∈ gold_words labels) :
    evaluate_against_gold gr cl pl =
      Except.error (overlap_message (overlapping_predictions labels cl pl)) := by
  have hov : (overlapping_predictions labels cl pl).Nonempty :=
    ⟨w, Finset.mem_inter.mpr
      ⟨Finset.mem_inter.mpr ⟨hcl, hgw⟩, Finset.mem_inter.mpr ⟨hpl, hgw⟩⟩⟩
  unfold evaluate_against_gold
  rw [hg]
  show (if (overlapping_predictions labels cl pl).Nonempty then
      Except.error (overlap_message (overlapping_predictions labels cl pl))
    else Except.ok (mk_report labels cl pl)) =
    Except.error (overlap_message (overlapping_predictions labels cl pl))
  rw [if_pos hov]

/-- Witness for C4 (amended): "bank" predicted both ways while in gold
yields the error whose message reports count 1 and the preview. -/
theorem overlap_error_witness :
    _load_gold_labels [("bank", "common")] = Except.ok [("bank", "common")] ∧
    evaluate_against_gold [("bank", "common")] ["bank"] ["bank"] =
      Except.error "Found 1 words present in both prediction files; examples: bank." := by
  refine ⟨by with_unfolding_all decide, ?_⟩
  have h := overlap_error [("bank", "common")] ["bank"] ["bank"] [("bank", "common")] "bank"
    (by with_unfolding_all decide) (by with_unfolding_all decide)
    (by with_unfolding_all decide) (by with_unfolding_all decide)
  rw [h]
  with_unfolding_all decide

/-- Counterexample to C4 as stated: the two prediction files both contain
"bank", yet evaluation succeeds, because the overlap check runs only after
both prediction sets are intersected with the gold words and "bank" is not
in the gold file. -/
theorem overlap_not_checked_outside_gold :
    (evaluate_against_gold [("dog", "common")] ["bank"] ["bank"]).isOk = true := by
  with_unfolding_all decide

/-! ### C2: the confusion-sum gap -/

/-- The gold label `evaluate_against_gold` uses for a word, straight from
the parsed gold mapping (`none` when the gold file fails to parse or does
not know the word). -/
def gold_label_of (rows : List (String × String)) (w : String) : Option Label :=
  match _load_gold_labels rows with
  | Except.ok labels => labels.lookup w
  | Except.error _ => none

/-- On success the gold dict has pairwise-distinct keys and only the two
normalized labels as values. -/
theorem gold_loop_ok_invariants (rows : List (String × String)) :
    ∀ labels out, _load_gold_labels_loop labels rows = Except.ok out →
      (labels.map Prod.fst).Nodup →
      (∀ p ∈ labels, p.2 = "common" ∨ p.2 = "proper") →
      (out.map Prod.fst).Nodup ∧ ∀ p ∈ out, p.2 = "common" ∨ p.2 = "proper" := by
  induction rows with
  | nil =>
    intro labels out hout hn hv
    simp only [_load_gold_labels_loop, Except.ok.injEq] at hout
    subst hout
    exact ⟨hn, hv⟩
  | cons row rest ih =>
    intro labels out hout hn hv
    rcases row with ⟨rw0, rt0⟩
    by_cases h0 : pyStrip rw0 = ""
    · have hloop : _load_gold_labels_loop labels ((rw0, rt0) :: rest) =
          _load_gold_labels_loop labels rest := by
        simp [_load_gold_labels_loop, h0]
      rw [hloop] at hout
      exact ih labels out hout hn hv
    · cases hmt : _normalise_truth rt0 with
      | error e =>
        have : _load_gold_labels_loop labels ((rw0, rt0) :: rest) = Except.error e := by
          simp [_load_gold_labels_loop, h0, hmt]
        rw [this] at hout
        exact Except.noConfusion hout
      | ok t =>
        cases hlk : labels.lookup (pyStrip rw0) with
        | some existing =>
          by_cases hne : existing = t
          · subst hne
            have hloop : _load_gold_labels_loop labels ((rw0, rt0) :: rest) =
                _load_gold_labels_loop labels rest := by
              simp [_load_gold_labels_loop, h0, hmt, hlk]
            rw [hloop] at hout
            exact ih labels out hout hn hv
          · have hloop : _load_gold_labels_loop labels ((rw0, rt0) :: rest) =
                Except.error ("Conflicting labels detected for word '" ++ pyStrip rw0 ++
                  "': '" ++ existing ++ "' vs '" ++ t ++ "'.") := by
              simp [_load_gold_labels_loop, h0, hmt, hlk, hne]
            rw [hloop] at hout
            exact Except.noConfusion hout
        | none =>
          have hloop : _load_gold_labels_loop labels ((rw0, rt0) :: rest) =
              _load_gold_labels_loop (labels ++ [(pyStrip rw0, t)]) rest := by
            simp [_load_gold_labels_loop, h0, hmt, hlk]
          rw [hloop] at hout
          have hnotmem : pyStrip rw0 ∉ labels.map Prod.fst := by
            intro hmem0
            have hsome := lookup_isSome_iff_mem_keys.mpr hmem0
            rw [hlk] at hsome
            simp at hsome
          have hn' : ((labels ++ [(pyStrip rw0, t)]).map Prod.fst).Nodup := by
            rw [List.map_append, List.nodup_append]
            refine ⟨hn, by simp, ?_⟩
            intro a ha hb
            simp at hb
            subst hb
            exact hnotmem ha
          have hv' : ∀ p ∈ labels ++ [(pyStrip rw0, t)], p.2 = "common" ∨ p.2 = "proper" := by
            intro p hp
            rcases List.mem_append.mp hp with hp' | hp'
            · exact hv p hp'
            · simp at hp'
              subst hp'
              exact normalise_truth_ok_cases hmt
          exact ih _ out hout hn' hv'

theorem gold_labels_ok_invariants {rows : List (String × String)}
    {labels : List (String × Label)} (h : _load_gold_labels rows = Except.ok labels) :
    (labels.map Prod.fst).Nodup ∧ ∀ p ∈ labels, p.2 = "common" ∨ p.2 = "proper" :=
  gold_loop_ok_invariants rows [] labels h (by simp) (by simp)

theorem mem_gold_words_iff {labels : List (String × Label)} {w : String} :
    w ∈ gold_words labels ↔ ∃ v, (w, v) ∈ labels := by
  simp only [gold_words, List.mem_toFinset, List.mem_map]
  constructor
  · rintro ⟨⟨a, b⟩, hmem, rfl⟩
    exact ⟨b, hmem⟩
  · rintro ⟨v, hmem⟩
    exact ⟨(w, v), hmem, rfl⟩

theorem mem_gold_common_iff {labels : List (String × Label)} {w : String} :
    w ∈ gold_common labels ↔ (w, "common") ∈ labels := by
  simp only [gold_common, List.mem_toFinset, List.mem_map, List.mem_filter]
  constructor
  · rintro ⟨⟨a, b⟩, ⟨hmem, hb⟩, rfl⟩
    simp only [decide_eq_true_eq] at hb
    rw [show b = "common" from hb] at hmem
    exact hmem
  · intro hmem
    exact ⟨(w, "common"), ⟨hmem, by simp⟩, rfl⟩

/-- For gold-known words under the parse invariants, looking up "proper"
characterizes membership in the proper side of the gold partition. -/
theorem lookup_proper_iff_mem_gold_proper {labels : List (String × Label)} {w : String}
    (hn : (labels.map Prod.fst).Nodup)
    (hv : ∀ p ∈ labels, p.2 = "common" ∨ p.2 = "proper")
    (hw : w ∈ gold_words labels) :
    labels.lookup w = some "proper" ↔ w ∈ gold_proper labels := by
  obtain ⟨v, hv0⟩ := mem_gold_words_iff.mp hw
  have hlkv : labels.lookup w = some v := mem_lookup_of_keys_nodup hn hv0
  rw [hlkv]
  rcases hv (w, v) hv0 with hcom | hprop
  · simp only at hcom
    subst hcom
    refine iff_of_false (by simp) (fun hgp => ?_)
    exact (Finset.mem_sdiff.mp hgp).2 (mem_gold_common_iff.mpr hv0)
  · simp only at hprop
    subst hprop
    refine iff_of_true rfl (Finset.mem_sdiff.mpr ⟨hw, fun hgc => ?_⟩)
    have := keys_nodup_val_eq hn hv0 (mem_gold_common_iff.mp hgc)
    exact absurd this (by decide)

/-- Filtering a sorted enumeration of a finite set by a decidable predicate
counts the matching elements of the set. -/
theorem length_filter_sort (p : String → Prop) [DecidablePred p]
    (r : String → String → Prop) [DecidableRel r] [IsTrans String r] [IsAntisymm String r]
    [IsTotal String r] (s : Finset String) :
    ((s.sort r).filter (fun x => decide (p x))).length = (s.filter p).card := by
  have hperm := (Finset.sort_perm_toList r s).filter (fun x => decide (p x))
  rw [hperm.length_eq]
  rw [Finset.card_def, Finset.filter_val]
  have hco : Multiset.filter p s.1 = ((s.toList.filter (fun x => decide (p x)) : List String) :
      Multiset String) := by
    conv_lhs => rw [← Multiset.coe_toList s.1]
    rw [Multiset.filter_coe]
    rfl
  rw [hco, Multiset.coe_card]

/-- The arithmetic core of C2: the four confusion counts plus the number of
gold-proper missing words exactly exhaust the gold words. -/
theorem report_gap (labels : List (String × Label)) (cl pl : List String)
    (hov : ¬ (overlapping_predictions labels cl pl).Nonempty) :
    (true_positive_words labels cl).card + (true_negative_words labels pl).card +
      (false_positive_words labels cl).card + (false_negative_words labels cl).card +
      (gold_proper labels ∩ missing_words_set labels cl pl).card =
    (gold_words labels).card := by
  have hd := overlap_empty_disjoint hov
  have htpfn : (true_positive_words labels cl).card + (false_negative_words labels cl).card =
      (gold_common labels).card :=
    Finset.card_inter_add_card_sdiff (gold_common labels) (predicted_common labels cl)
  have hsplit := Finset.card_inter_add_card_sdiff (gold_proper labels)
    (predicted_common labels cl ∪ predicted_proper labels pl)
  have hdistrib : gold_proper labels ∩ (predicted_common labels cl ∪ predicted_proper labels pl) =
      (gold_proper labels ∩ predicted_common labels cl) ∪
        (gold_proper labels ∩ predicted_proper labels pl) :=
    Finset.inter_union_distrib_left _ _ _
  have hdisj2 : Disjoint (gold_proper labels ∩ predicted_common labels cl)
      (gold_proper labels ∩ predicted_proper labels pl) :=
    hd.mono Finset.inter_subset_right Finset.inter_subset_right
  have hcard := Finset.card_union_of_disjoint hdisj2
  have hfp : false_positive_words labels cl = gold_proper labels ∩ predicted_common labels cl := by
    unfold false_positive_words
    exact Finset.inter_comm _ _
  have hmiss : gold_proper labels ∩ missing_words_set labels cl pl =
      gold_proper labels \ (predicted_common labels cl ∪ predicted_proper labels pl) := by
    unfold missing_words_set gold_proper
    ext x
    simp only [Finset.mem_inter, Finset.mem_sdiff, Finset.mem_union]
    tauto
  have hgcgp := card_gc_add_gp labels
  rw [hdistrib, hcard] at hsplit
  rw [hfp, hmiss]
  unfold true_negative_words at *
  omega

/-- C2 (amended): in every successful report the four confusion counts sum
to at most the number of gold words, and the gap is the number of missing
words whose gold label is proper (missing gold-common words are already
counted in FN, so the gap is not `len(missing_words)` in general). -/
theorem confusion_gap (gr : List (String × String)) (cl pl : List String)
    (r : EvaluationReport) (h : evaluate_against_gold gr cl pl = Except.ok r) :
    r.true_positive + r.true_negative + r.false_positive + r.false_negative ≤ r.total_words ∧
    r.true_positive + r.true_negative + r.false_positive + r.false_negative +
      (r.missing_words.filter (fun w => gold_label_of gr w = some "proper")).length =
      r.total_words := by
  obtain ⟨labels, hg, hov, rfl⟩ := evaluate_ok_elim h
  obtain ⟨hn, hv⟩ := gold_labels_ok_invariants hg
  have hgap := report_gap labels cl pl hov
  have hlen : ((mk_report labels cl pl).missing_words.filter
      (fun w => gold_label_of gr w = some "proper")).length =
      (gold_proper labels ∩ missing_words_set labels cl pl).card := by
    show (((missing_words_set labels cl pl).sort _sort_key_le).filter
      (fun w => decide (gold_label_of gr w = some "proper"))).length = _
    rw [length_filter_sort (fun w => gold_label_of gr w = some "proper") _sort_key_le
      (missing_words_set labels cl pl)]
    congr 1
    ext x
    simp only [Finset.mem_filter, Finset.mem_inter]
    constructor
    · rintro ⟨hx, hlbl⟩
      have hxg : x ∈ gold_words labels := Finset.mem_sdiff.mp hx |>.1
      rw [gold_label_of, hg] at hlbl
      exact ⟨(lookup_proper_iff_mem_gold_proper hn hv hxg).mp hlbl, hx⟩
    · rintro ⟨hgp, hx⟩
      have hxg : x ∈ gold_words labels := Finset.mem_sdiff.mp hx |>.1
      refine ⟨hx, ?_⟩
      rw [gold_label_of, hg]
      exact (lookup_proper_iff_mem_gold_proper hn hv hxg).mpr hgp
  constructor
  · show (true_positive_words labels cl).card + (true_negative_words labels pl).card +
      (false_positive_words labels cl).card + (false_negative_words labels cl).card ≤
      (gold_words labels).card
    omega
  · rw [hlen]
    show (true_positive_words labels cl).card + (true_negative_words labels pl).card +
      (false_positive_words labels cl).card + (false_negative_words labels cl).card +
      (gold_proper labels ∩ missing_words_set labels cl pl).card = (gold_words labels).card
    exact hgap

/-- Counterexample to C2 as stated: gold has one common word "a" and there
are no predictions, so TP+TN+FP+FN = 1 = total gold words (FN counts the
missing word) while `missing_words` has length 1 — the gap is 0, not
`len(missing_words)`. -/
theorem confusion_gap_counterexample :
    (evaluate_against_gold [("a", "common")] [] []).map
      (fun r => (r.true_positive + r.true_negative + r.false_positive + r.false_negative,
        r.total_words, r.missing_words.length)) = Except.ok (1, 1, 1) := by
  with_unfolding_all decide

/-! ### C5: derived metrics -/

theorem ratio_bounds (a b : ℕ) (hab : a ≤ b) (hb : b ≠ 0) :
    0 ≤ ((a : ℚ) / (b : ℚ)) ∧ ((a : ℚ) / (b : ℚ)) ≤ 1 := by
  have hb' : (0 : ℚ) < (b : ℚ) := by exact_mod_cast Nat.pos_of_ne_zero hb
  constructor
  · positivity
  · rw [div_le_one hb']
    exact_mod_cast hab

theorem harmonic_bounds (p q : ℚ) (hp0 : 0 ≤ p) (hp1 : p ≤ 1) (hq0 : 0 ≤ q) (hq1 : q ≤ 1)
    (hpq : p + q ≠ 0) : 0 ≤ 2 * p * q / (p + q) ∧ 2 * p * q / (p + q) ≤ 1 := by
  have hpos : 0 < p + q := lt_of_le_of_ne (by linarith) (Ne.symm hpq)
  constructor
  · apply div_nonneg (by positivity) hpos.le
  · rw [div_le_one hpos]
    nlinarith [mul_nonneg (sub_nonneg.mpr hp1) hq0, mul_nonneg (sub_nonneg.mpr hq1) hp0]

/-- C5: the accuracy/precision/recall/F1 fields of every successful report
follow the spec's formulas, the optional fields are absent exactly on zero
denominators (and F1 additionally when precision+recall is zero), and every
present metric lies in [0, 1]. -/
theorem metrics_spec (gr : List (String × String)) (cl pl : List String)
    (r : EvaluationReport) (h : evaluate_against_gold gr cl pl = Except.ok r) :
    (r.total_words = 0 → r.accuracy = 0) ∧
    (r.total_words ≠ 0 →
      r.accuracy = ((r.true_positive + r.true_negative : ℕ) : ℚ) / (r.total_words : ℚ)) ∧
    (r.precision = none ↔ r.true_positive + r.false_positive = 0) ∧
    (r.true_positive + r.false_positive ≠ 0 →
      r.precision = some ((r.true_positive : ℚ) /
        ((r.true_positive + r.false_positive : ℕ) : ℚ))) ∧
    (r.«recall» = none ↔ r.true_positive + r.false_negative = 0) ∧
    (r.true_positive + r.false_negative ≠ 0 →
      r.«recall» = some ((r.true_positive : ℚ) /
        ((r.true_positive + r.false_negative : ℕ) : ℚ))) ∧
    (∀ p q, r.precision = some p → r.«recall» = some q →
      (p + q ≠ 0 → r.f1 = some (2 * p * q / (p + q))) ∧ (p + q = 0 → r.f1 = none)) ∧
    ((r.precision = none ∨ r.«recall» = none) → r.f1 = none) ∧
    (0 ≤ r.accuracy ∧ r.accuracy ≤ 1) ∧
    (∀ p, r.precision = some p → 0 ≤ p ∧ p ≤ 1) ∧
    (∀ q, r.«recall» = some q → 0 ≤ q ∧ q ≤ 1) ∧
    (∀ v, r.f1 = some v → 0 ≤ v ∧ v ≤ 1) := by
  obtain ⟨labels, hg, hov, rfl⟩ := evaluate_ok_elim h
  have hrtw : (mk_report labels cl pl).total_words = (gold_words labels).card := rfl
  have hrtp : (mk_report labels cl pl).true_positive = (true_positive_words labels cl).card := rfl
  have hrtn : (mk_report labels cl pl).true_negative = (true_negative_words labels pl).card := rfl
  have hrfp : (mk_report labels cl pl).false_positive =
    (false_positive_words labels cl).card := rfl
  have hrfn : (mk_report labels cl pl).false_negative =
    (false_negative_words labels cl).card := rfl
  set tp := (true_positive_words labels cl).card with htpd
  set tn := (true_negative_words labels pl).card with htnd
  set fp := (false_positive_words labels cl).card with hfpd
  set fn := (false_negative_words labels cl).card with hfnd
  set tw := (gold_words labels).card with htwd
  have hracc : (mk_report labels cl pl).accuracy =
      (if tw ≠ 0 then ((tp + tn : ℕ) : ℚ) / (tw : ℚ) else 0) := rfl
  have hrprec : (mk_report labels cl pl).precision =
      (if tp + fp ≠ 0 then some ((tp : ℚ) / ((tp + fp : ℕ) : ℚ)) else none) := rfl
  have hrrec : (mk_report labels cl pl).«recall» =
      (if tp + fn ≠ 0 then some ((tp : ℚ) / ((tp + fn : ℕ) : ℚ)) else none) := rfl
  have hrf1 : (mk_report labels cl pl).f1 =
      (match (if tp + fp ≠ 0 then some ((tp : ℚ) / ((tp + fp : ℕ) : ℚ)) else none),
             (if tp + fn ≠ 0 then some ((tp : ℚ) / ((tp + fn : ℕ) : ℚ)) else none) with
       | some p, some q => if p + q ≠ 0 then some (2 * p * q / (p + q)) else none
       | _, _ => none) := rfl
  have htptn : tp + tn ≤ tw := by
    have h1 : tp ≤ (gold_common labels).card :=
      Finset.card_le_card Finset.inter_subset_left
    have h2 : tn ≤ (gold_proper labels).card :=
      Finset.card_le_card Finset.inter_subset_left
    have h3 := card_gc_add_gp labels
    omega
  have hprec_iff : (mk_report labels cl pl).precision = none ↔ tp + fp = 0 := by
    rw [hrprec]
    split_ifs with hc
    · exact iff_of_false (by simp) hc
    · exact iff_of_true rfl (by omega)
  have hrec_iff : (mk_report labels cl pl).«recall» = none ↔ tp + fn = 0 := by
    rw [hrrec]
    split_ifs with hc
    · exact iff_of_false (by simp) hc
    · exact iff_of_true rfl (by omega)
  have hprec_bounds : ∀ p, (mk_report labels cl pl).precision = some p → 0 ≤ p ∧ p ≤ 1 := by
    intro p hp
    rw [hrprec] at hp
    split_ifs at hp with hc
    injection hp with hp'
    rw [← hp']
    exact ratio_bounds tp (tp + fp) (by omega) hc
  have hrec_bounds : ∀ q, (mk_report labels cl pl).«recall» = some q → 0 ≤ q ∧ q ≤ 1 := by
    intro q hq
    rw [hrrec] at hq
    split_ifs at hq with hc
    injection hq with hq'
    rw [← hq']
    exact ratio_bounds tp (tp + fn) (by omega) hc
  have hf1_eq : ∀ p q, (mk_report labels cl pl).precision = some p →
      (mk_report labels cl pl).«recall» = some q →
      (p + q ≠ 0 → (mk_report labels cl pl).f1 = some (2 * p * q / (p + q))) ∧
      (p + q = 0 → (mk_report labels cl pl).f1 = none) := by
    intro p q hp hq
    rw [hrprec] at hp
    rw [hrrec] at hq
    rw [hrf1, hp, hq]
    constructor
    · intro hpq
      show (if p + q ≠ 0 then some (2 * p * q / (p + q)) else none) =
        some (2 * p * q / (p + q))
      rw [if_pos hpq]
    · intro hpq
      show (if p + q ≠ 0 then some (2 * p * q / (p + q)) else none) = none
      rw [if_neg (by rw [hpq]; simp)]
  have hf1_none : ((mk_report labels cl pl).precision = none ∨
      (mk_report labels cl pl).«recall» = none) → (mk_report labels cl pl).f1 = none := by
    rintro (hp | hq)
    · rw [hrprec] at hp
      split_ifs at hp with hc
      rw [hrf1, if_neg hc]
    · rw [hrrec] at hq
      split_ifs at hq with hc
      rw [hrf1, if_neg hc]
      cases hc2 : (if tp + fp ≠ 0 then some ((tp : ℚ) / ((tp + fp : ℕ) : ℚ)) else none) <;> rfl
  refine ⟨?_, ?_, ?_, ?_, ?_, ?_, hf1_eq, hf1_none, ?_, hprec_bounds, hrec_bounds, ?_⟩
  · intro h0
    rw [hracc, if_neg (by rw [hrtw] at h0; omega)]
  · intro h0
    rw [hrtw] at h0
    rw [hracc, if_pos h0, hrtp, hrtn, hrtw]
  · rw [hrtp, hrfp]
    exact hprec_iff
  · intro h0
    rw [hrtp, hrfp] at h0
    rw [hrprec, if_pos h0, hrtp, hrfp]
  · rw [hrtp, hrfn]
    exact hrec_iff
  · intro h0
    rw [hrtp, hrfn] at h0
    rw [hrrec, if_pos h0, hrtp, hrfn]
  · rw [hracc]
    split_ifs with hc
    · exact ratio_bounds (tp + tn) tw htptn hc
    · exact ⟨le_refl 0, by norm_num⟩
  · intro v hv
    cases hp : (mk_report labels cl pl).precision with
    | none =>
      rw [hf1_none (Or.inl hp)] at hv
      exact absurd hv (by simp)
    | some p =>
      cases hq : (mk_report labels cl pl).«recall» with
      | none =>
        rw [hf1_none (Or.inr hq)] at hv
        exact absurd hv (by simp)
      | some q =>
        by_cases hpq : p + q = 0
        · rw [(hf1_eq p q hp hq).2 hpq] at hv
          exact absurd hv (by simp)
        · rw [(hf1_eq p q hp hq).1 hpq] at hv
          injection hv with hv'
          obtain ⟨hp0, hp1⟩ := hprec_bounds p hp
          obtain ⟨hq0, hq1⟩ := hrec_bounds q hq
          rw [← hv']
          exact harmonic_bounds p q hp0 hp1 hq0 hq1 hpq

/-! ### C9: report word-list ordering -/

/-- C9: every word-list field of a successful report is sorted by the
case-insensitive-primary/literal-tiebreak order, and that order genuinely
differs from the batch classifier's plain code-point order (witnessed at the
pair "a", "B"). -/
theorem report_lists_sorted (gr : List (String × String)) (cl pl : List String)
    (r : EvaluationReport) (h : evaluate_against_gold gr cl pl = Except.ok r) :
    r.missing_words.Pairwise _sort_key_le ∧
    r.false_positive_words.Pairwise _sort_key_le ∧
    r.false_negative_words.Pairwise _sort_key_le ∧
    r.extra_common_predictions.Pairwise _sort_key_le ∧
    r.extra_proper_predictions.Pairwise _sort_key_le ∧
    (_sort_key_le "a" "B" ∧ ¬ string_le "a" "B") := by
  obtain ⟨labels, -, -, rfl⟩ := evaluate_ok_elim h
  exact ⟨Finset.sort_sorted _sort_key_le (missing_words_set labels cl pl),
    Finset.sort_sorted _sort_key_le (false_positive_words labels cl),
    Finset.sort_sorted _sort_key_le (false_negative_words labels cl),
    Finset.sort_sorted _sort_key_le (extra_common_set labels cl),
    Finset.sort_sorted _sort_key_le (extra_proper_set labels pl),
    by decide, by decide⟩

/-! ### Concrete demo evaluations (the spec's §8 scenarios) used by the
witnesses -/

def demo_gold : List (String × String) := [("dog", "common"), ("Paris", "proper")]
def demo_common_lines : List String := ["dog"]
def demo_proper_lines : List String := ["Paris"]

def demo_report : EvaluationReport :=
  { total_words := 2, total_common := 1, total_proper := 1,
    predicted_common := 1, predicted_proper := 1,
    true_positive := 1, true_negative := 1, false_positive := 0, false_negative := 0,
    accuracy := 1, precision := some 1, «recall» := some 1, f1 := some 1,
    missing_words := [], false_positive_words := [], false_negative_words := [],
    extra_common_predictions := [], extra_proper_predictions := [] }

theorem demo_evaluate :
    evaluate_against_gold demo_gold demo_common_lines demo_proper_lines =
      Except.ok demo_report := by
  with_unfolding_all decide

def demo2_gold : List (String × String) :=
  [("dog", "common"), ("Paris", "proper"), ("apple", "common")]
def demo2_common_lines : List String := ["dog", "zebra", "Apple", "apple"]
def demo2_proper_lines : List String := ["Paris", "Bank"]

def demo2_report : EvaluationReport :=
  { total_words := 3, total_common := 2, total_proper := 1,
    predicted_common := 2, predicted_proper := 1,
    true_positive := 2, true_negative := 1, false_positive := 0, false_negative := 0,
    accuracy := 1, precision := some 1, «recall» := some 1, f1 := some 1,
    missing_words := [], false_positive_words := [], false_negative_words := [],
    extra_common_predictions := ["Apple", "zebra"], extra_proper_predictions := ["Bank"] }

theorem demo2_evaluate :
    evaluate_against_gold demo2_gold demo2_common_lines demo2_proper_lines =
      Except.ok demo2_report := by
  with_unfolding_all decide

/-- Witness for C7 at the spec's dog/Paris scenario. -/
theorem confusion_count_identities_witness :
    demo_report.true_positive + demo_report.false_negative = demo_report.total_common ∧
    demo_report.true_positive + demo_report.false_positive = demo_report.predicted_common :=
  confusion_count_identities demo_gold demo_common_lines demo_proper_lines demo_report
    demo_evaluate

/-- Witness for C2 (amended) at the spec's dog/Paris scenario. -/
theorem confusion_gap_witness :
    demo_report.true_positive + demo_report.true_negative + demo_report.false_positive +
      demo_report.false_negative ≤ demo_report.total_words ∧
    demo_report.true_positive + demo_report.true_negative + demo_report.false_positive +
      demo_report.false_negative +
      (demo_report.missing_words.filter
        (fun w => gold_label_of demo_gold w = some "proper")).length =
      demo_report.total_words :=
  confusion_gap demo_gold demo_common_lines demo_proper_lines demo_report demo_evaluate

/-- Witness for C5: the accuracy bounds at the spec's dog/Paris scenario. -/
theorem metrics_spec_witness :
    0 ≤ demo_report.accuracy ∧ demo_report.accuracy ≤ 1 :=
  (metrics_spec demo_gold demo_common_lines demo_proper_lines demo_report
    demo_evaluate).2.2.2.2.2.2.2.2.1

/-- Witness for C9: the nonempty extra-common list of the second demo is
sorted by the case-insensitive order ("Apple" before "zebra"). -/
theorem report_lists_sorted_witness :
    demo2_report.extra_common_predictions.Pairwise _sort_key_le :=
  (report_lists_sorted demo2_gold demo2_common_lines demo2_proper_lines demo2_report
    demo2_evaluate).2.2.2.1
